import Mathlib

/-!
Verification of the Gemini-Esports real-time perception-action core.

This file shallowly embeds the core of the repository:

* `GameAgent.Actions` — the per-frame action-intent buffer and its `flush`
  reconciliation (`game_agent/actions.py`), modelled as a pure function from
  an action state and a frame intent to a list of device events and a new
  state.
* `GameAgent.Runner` — the two script run loops
  (`game_agent/script_runner.py`), modelled over a finite list of frame
  inputs (one entry per executed frame).
* `Tracker` — the hierarchical multi-template tracker
  (`2dgametest/simple_match.py`).  The numeric `cv.matchTemplate` call is
  abstracted by a per-call oracle giving the score and location that
  `_best_match` would return; each oracle consultation is recorded in a call
  trace so that tier short-circuiting is observable.
* `GameAgent.State` — the shared entity table (`game_agent/game_state.py`)
  and the tracker-service publication step (`game_agent/tracker_service.py`),
  modelled as a pure association list with full-value replacement.

Python floats are modelled as rationals, Python ints as `Int`/`Nat` (the
quantities involved are nonnegative screen coordinates, so `int()`
truncation is `Int.floor`).
-/

namespace GameAgent

/-- Device events issued by `pydirectinput` calls inside `flush` /
`release_all`.  `press` is `pydirectinput.press` (a down-up tap), `sleep`
is the fixed double-tap gap `time.sleep(0.03)`, `log` is the
`print("[ERROR] ...")` in the run loops. -/
inductive Event where
  | keyDown (k : String)
  | keyUp (k : String)
  | press (k : String)
  | sleep
  | moveTo (x y : Int)
  | mouseDown
  | mouseUp
  | log (msg : String)
  deriving DecidableEq

/-- Persistent physical state of `Actions`: `_held_keys` and
`_mouse_is_down` (`actions.py` lines 30-33). -/
structure ActState where
  heldKeys : Finset String
  mouseDown : Bool
  deriving DecidableEq

/-- Per-frame intent of `Actions`: `_desired_keys`, `_mouse_target`,
`_want_attack`, `_queued_dashes` (`actions.py` lines 35-39).  The intent is
an argument of `flush` here because the Python object resets it at the end
of every `flush`. -/
structure Intent where
  desiredKeys : Finset String
  mouseTarget : Option (Int × Int)
  wantAttack : Bool
  queuedDashes : List String
  deriving DecidableEq, Inhabited

/-- The movement key of a dash direction:
`key = 'a' if direction == 'left' else 'd'` (`actions.py` line 113). -/
def dashKey (direction : String) : String :=
  if direction = "left" then "a" else "d"

/-- Step 1 of `flush` (`actions.py` lines 108-125): execute at most one
queued dash — take the first queued direction, release its movement key
first if currently held, then press / gap / press. -/
def dashStep (s : ActState) (dashes : List String) : List Event × ActState :=
  match dashes with
  | [] => ([], s)
  | d :: _ =>
    let k := dashKey d
    if k ∈ s.heldKeys then
      ([Event.keyUp k, Event.press k, Event.sleep, Event.press k],
        ⟨s.heldKeys.erase k, s.mouseDown⟩)
    else
      ([Event.press k, Event.sleep, Event.press k], s)

/-- Step 2 of `flush` (`actions.py` lines 127-138): release keys no longer
wanted, press newly wanted keys, set held := desired. -/
def reconcileStep (s : ActState) (desired : Finset String) : List Event × ActState :=
  (((s.heldKeys \ desired).sort (· ≤ ·)).map Event.keyUp
      ++ ((desired \ s.heldKeys).sort (· ≤ ·)).map Event.keyDown,
    ⟨desired, s.mouseDown⟩)

/-- Step 3 of `flush` (`actions.py` lines 140-142): move the mouse to the
declared target, if any. -/
def aimStep (target : Option (Int × Int)) : List Event :=
  match target with
  | some (x, y) => [Event.moveTo x y]
  | none => []

/-- Step 4 of `flush` (`actions.py` lines 144-150): press the mouse button
if attack is wanted and it is up, release it if unwanted and down. -/
def buttonStep (s : ActState) (wantAttack : Bool) : List Event × ActState :=
  if wantAttack ∧ ¬ s.mouseDown then
    ([Event.mouseDown], ⟨s.heldKeys, true⟩)
  else if ¬ wantAttack ∧ s.mouseDown then
    ([Event.mouseUp], ⟨s.heldKeys, false⟩)
  else
    ([], s)

/-- `Actions.flush` (`actions.py` lines 95-156): apply the frame intent as
device events, in the fixed order dash → key reconciliation → aim → mouse
button.  Step 5 (resetting the per-frame intent) is implicit: the intent is
consumed by value. -/
def flush (s : ActState) (it : Intent) : List Event × ActState :=
  let r1 := dashStep s it.queuedDashes
  let r2 := reconcileStep r1.2 it.desiredKeys
  let r3 := aimStep it.mouseTarget
  let r4 := buttonStep r2.2 it.wantAttack
  (r1.1 ++ r2.1 ++ r3 ++ r4.1, r4.2)

/-- `Actions.release_all` (`actions.py` lines 158-165): release every held
key and the mouse button, clear the held state. -/
def releaseAll (s : ActState) : List Event × ActState :=
  ((s.heldKeys.sort (· ≤ ·)).map Event.keyUp
      ++ (if s.mouseDown then [Event.mouseUp] else []),
    ⟨∅, false⟩)

/-- Whether an event is a `pydirectinput.press` tap (half of a double-tap). -/
def isPress : Event → Bool
  | Event.press _ => true
  | _ => false

/-- The device events of a frame that concern key `k` (key-down, key-up or
press of `k`). -/
def touchesKey (k : String) : Event → Bool
  | Event.keyDown k' => k' = k
  | Event.keyUp k' => k' = k
  | Event.press k' => k' = k
  | _ => false

/-- Restrict an event list to the events concerning key `k`. -/
def keyEvents (k : String) (evs : List Event) : List Event :=
  evs.filter (touchesKey k)

/-- `flush` applied to a list of per-frame intents in order, collecting the
event list of each frame. -/
def flushRun (s : ActState) : List Intent → List (List Event) × ActState
  | [] => ([], s)
  | it :: rest =>
    let r := flush s it
    let rr := flushRun r.2 rest
    (r.1 :: rr.1, rr.2)

/-- The action state reached after flushing the first `n` intents. -/
def stateAfter (s : ActState) (its : List Intent) (n : Nat) : ActState :=
  (flushRun s (its.take n)).2

/-- One executed frame of a run loop (`script_runner.py`): the intent the
policy declared before returning (or before raising), whether the policy's
`run()` raised (`policyError = some msg`, caught and printed by the loop),
and whether an exception propagated out of the rest of the frame body
(`flush`, logging or pacing), which aborts the loop. -/
structure FrameInput where
  intent : Intent
  policyError : Option String
  frameRaises : Bool
  deriving Inhabited

/-- The body of one loop iteration, shared verbatim by `run_script_loop`
(`script_runner.py` lines 77-84) and `run_script_timed` (lines 131-137):
`try: script.run(...) except: print error`, then `actions.flush()`. -/
def frameEvents (s : ActState) (f : FrameInput) : List Event × ActState :=
  let r := flush s f.intent
  (match f.policyError with
    | some e => Event.log e :: r.1
    | none => r.1, r.2)

/-- Outcome of a run loop: the device/log events of each executed frame, the
final action state, and whether the loop ended by a propagating exception. -/
structure LoopOut where
  traces : List (List Event)
  state : ActState
  aborted : Bool

/-- The shared frame loop of both run modes: execute frames in order until
the input list is exhausted (external stop: `stop_event` set, or
KeyboardInterrupt delivered) or a frame's body raises. -/
def loopFrames (s : ActState) : List FrameInput → LoopOut
  | [] => ⟨[], s, false⟩
  | f :: rest =>
    let r := frameEvents s f
    if f.frameRaises then ⟨[r.1], r.2, true⟩
    else
      let rr := loopFrames r.2 rest
      ⟨r.1 :: rr.traces, rr.state, rr.aborted⟩

/-- `run_script_timed` (`script_runner.py` lines 106-162): the bounded
cancellation-driven loop; its `finally:` block (lines 153-155) applies
`actions.release_all()` on every exit path, normal or exceptional. -/
def runScriptTimed (s : ActState) (frames : List FrameInput) : LoopOut :=
  let r := loopFrames s frames
  let rel := releaseAll r.state
  ⟨r.traces ++ [rel.1], rel.2, r.aborted⟩

/-- The CLI mode: `run_script_loop` (`script_runner.py` lines 61-103, which
catches KeyboardInterrupt itself) invoked by `main`, whose `finally:` block
(lines 201-205) applies `actions.release_all()` whether the loop returned
normally or an exception propagated out of it. -/
def scriptRunnerMain (s : ActState) (frames : List FrameInput) : LoopOut :=
  let r := loopFrames s frames
  let rel := releaseAll r.state
  ⟨r.traces ++ [rel.1], rel.2, r.aborted⟩

end GameAgent

namespace Tracker

/-- Immutable configuration of `MultiTemplateTrackerCV`
(`simple_match.py` lines 57-87).  Scores and the downscale factor are
Python floats, modelled as rationals; screen dimensions are ints.
`usePyramid` is `downscale_factor < 1.0` and
`skipFullScan` is `skip_full_scan and use_pyramid` (lines 77-78) — see
`Config.ofInit`. -/
structure Config where
  confidence : ℚ
  searchMargin : ℤ
  usePyramid : Bool
  skipFullScan : Bool
  downscaleFactor : ℚ
  useGrayscale : Bool
  screenW : ℤ
  screenH : ℤ

/-- The constructor's derived flags (`simple_match.py` lines 72-78):
`use_pyramid = downscale_factor < 1.0`,
`skip_full_scan = skip_full_scan and use_pyramid`. -/
def Config.ofInit (confidence : ℚ) (searchMargin : ℤ) (useGrayscale : Bool)
    (downscaleFactor : ℚ) (skipFullScan : Bool) (screenW screenH : ℤ) : Config :=
  ⟨confidence, searchMargin, decide (downscaleFactor < 1),
    skipFullScan && decide (downscaleFactor < 1),
    downscaleFactor, useGrayscale, screenW, screenH⟩

/-- `self.screen_w_small = int(self.screen_w * self.downscale_factor)`
(`simple_match.py` line 86); the product is nonnegative so Python's `int()`
truncation is the floor. -/
def Config.screenWSmall (cfg : Config) : ℤ :=
  ⌊(cfg.screenW : ℚ) * cfg.downscaleFactor⌋

/-- `self.screen_h_small = int(self.screen_h * self.downscale_factor)`
(`simple_match.py` line 87). -/
def Config.screenHSmall (cfg : Config) : ℤ :=
  ⌊(cfg.screenH : ℚ) * cfg.downscaleFactor⌋

/-- Per-template mutable state (`simple_match.py` lines 42-54): template
dimensions at full and downscaled resolution, the last successful position,
and the found flag. -/
structure TemplateState where
  id : Nat
  w : ℤ
  h : ℤ
  wSmall : ℤ
  hSmall : ℤ
  lastPos : Option (ℤ × ℤ)
  found : Bool
  deriving Inhabited

/-- `MatchResult` (`simple_match.py` lines 30-39). -/
structure MatchResult where
  id : Nat
  found : Bool
  x : ℤ
  y : ℤ
  w : ℤ
  h : ℤ
  score : ℚ
  method : String
  deriving DecidableEq, Inhabited

/-- The four `_best_match` call sites inside `_match_one`: the heuristic-ROI
match (line 184), the coarse downscaled match (line 198), the full-resolution
refinement match (line 216) and the full-frame scan (line 229). -/
inductive TierCall where
  | roi
  | coarse
  | refine
  | fullScan
  deriving DecidableEq

/-- Oracle abstracting `_best_match` (`simple_match.py` lines 138-157): for
each of the four call sites of `_match_one` on a given frame and template,
the score and best location `cv.matchTemplate` + `cv.minMaxLoc` would
report.  Locations are the nonnegative array indices `minMaxLoc` returns. -/
structure MatchOracle where
  roiScore : ℚ
  roiLoc : Nat × Nat
  coarseScore : ℚ
  coarseLoc : Nat × Nat
  refineScore : ℚ
  refineLoc : Nat × Nat
  fullScore : ℚ
  fullLoc : Nat × Nat

/-- Tier 1 of `_match_one` — heuristic ROI (`simple_match.py` lines
173-192): only when `last_pos` is set, crop a margin window around it,
clipped to the screen; if the window still fits the template, match there
and accept when the score clears the primary threshold. -/
def heuristicTier (cfg : Config) (t : TemplateState) (o : MatchOracle) :
    Option MatchResult × List TierCall :=
  match t.lastPos with
  | none => (none, [])
  | some (lx, ly) =>
    let roiX := max 0 (lx - cfg.searchMargin)
    let roiY := max 0 (ly - cfg.searchMargin)
    let roiW := min (cfg.searchMargin * 2 + t.w) (cfg.screenW - roiX)
    let roiH := min (cfg.searchMargin * 2 + t.h) (cfg.screenH - roiY)
    if roiW ≥ t.w ∧ roiH ≥ t.h then
      if o.roiScore ≥ cfg.confidence then
        (some ⟨t.id, true, roiX + o.roiLoc.1, roiY + o.roiLoc.2, t.w, t.h,
            o.roiScore, "Heuristic"⟩,
          [TierCall.roi])
      else (none, [TierCall.roi])
    else (none, [])

/-- Tier 2 of `_match_one` — pyramid coarse-to-fine (`simple_match.py`
lines 194-224): only when the pyramid is enabled and a downscaled frame was
provided; the coarse hit is accepted at the relaxed threshold
`confidence * 0.9`, rescaled to full resolution (`int()` of a nonnegative
value is the floor) and re-matched in a refinement window; a `"Pyramid"`
result needs the refined score to clear the primary threshold. -/
def pyramidTier (cfg : Config) (t : TemplateState) (frameSmallAvail : Bool)
    (o : MatchOracle) : Option MatchResult × List TierCall :=
  if cfg.usePyramid ∧ frameSmallAvail then
    if cfg.screenWSmall ≥ t.wSmall ∧ cfg.screenHSmall ≥ t.hSmall then
      if o.coarseScore ≥ cfg.confidence * (9 / 10) then
        let scale : ℚ := 1 / cfg.downscaleFactor
        let xFull := ⌊(o.coarseLoc.1 : ℚ) * scale⌋
        let yFull := ⌊(o.coarseLoc.2 : ℚ) * scale⌋
        let refineMargin := max 20 ⌊(50 : ℚ) / cfg.downscaleFactor⌋
        let roiX := max 0 (xFull - refineMargin)
        let roiY := max 0 (yFull - refineMargin)
        let roiW := min (t.w + refineMargin * 2) (cfg.screenW - roiX)
        let roiH := min (t.h + refineMargin * 2) (cfg.screenH - roiY)
        if roiW ≥ t.w ∧ roiH ≥ t.h then
          if o.refineScore ≥ cfg.confidence then
            (some ⟨t.id, true, roiX + o.refineLoc.1, roiY + o.refineLoc.2,
                t.w, t.h, o.refineScore, "Pyramid"⟩,
              [TierCall.coarse, TierCall.refine])
          else (none, [TierCall.coarse, TierCall.refine])
        else (none, [TierCall.coarse])
      else (none, [TierCall.coarse])
    else (none, [])
  else (none, [])

/-- Tier 3 of `_match_one` — full-resolution scan (`simple_match.py` lines
226-237): only when `skip_full_scan` is off. -/
def fullScanTier (cfg : Config) (t : TemplateState) (o : MatchOracle) :
    Option MatchResult × List TierCall :=
  if ¬ cfg.skipFullScan then
    if cfg.screenW ≥ t.w ∧ cfg.screenH ≥ t.h then
      if o.fullScore ≥ cfg.confidence then
        (some ⟨t.id, true, o.fullLoc.1, o.fullLoc.2, t.w, t.h, o.fullScore,
            "Full Scan"⟩,
          [TierCall.fullScan])
      else (none, [TierCall.fullScan])
    else (none, [])
  else (none, [])

/-- The miss result emitted at the end of `_match_one` (`simple_match.py`
lines 239-245). -/
def notFound (t : TemplateState) : MatchResult :=
  ⟨t.id, false, 0, 0, t.w, t.h, 0, "Not Found"⟩

/-- `_match_one` (`simple_match.py` lines 159-245): try the tiers in order,
return at the first success, record every `_best_match` invocation in the
call trace. -/
def matchOne (cfg : Config) (t : TemplateState) (frameSmallAvail : Bool)
    (o : MatchOracle) : MatchResult × List TierCall :=
  match heuristicTier cfg t o with
  | (some r, c1) => (r, c1)
  | (none, c1) =>
    match pyramidTier cfg t frameSmallAvail o with
    | (some r, c2) => (r, c1 ++ c2)
    | (none, c2) =>
      match fullScanTier cfg t o with
      | (some r, c3) => (r, c1 ++ c2 ++ c3)
      | (none, c3) => (notFound t, c1 ++ c2 ++ c3)

/-- Resource counters of one `find_all` cycle: screen captures
(`_grab_frame_bgr`, line 248), grayscale conversions (line 251) and
downscaled-frame constructions (lines 255-262). -/
structure World where
  captures : Nat
  grayConvs : Nat
  downscales : Nat
  deriving DecidableEq

/-- The per-template matching pass of `find_all` (`simple_match.py` lines
264-269): every template is matched against the same captured frame, with
the downscaled frame available exactly when the pyramid is enabled (lines
255-262).  `os` is the per-template oracle slice of that one frame. -/
def matchAll (cfg : Config) (os : Nat → MatchOracle) :
    List TemplateState → Nat → List MatchResult
  | [], _ => []
  | t :: rest, i =>
    (matchOne cfg t cfg.usePyramid (os i)).1 :: matchAll cfg os rest (i + 1)

/-- One step of the state-update loop of `find_all` (`simple_match.py`
lines 271-279): `t = self.templates[r.id]`, then set `last_pos` to the hit
position on success and to `None` on a miss.  (An out-of-range `r.id` would
raise in Python; it never occurs, since `_match_one` copies the template's
own id.) -/
def applyResult (ts : List TemplateState) (r : MatchResult) : List TemplateState :=
  match ts.get? r.id with
  | some t =>
    ts.set r.id
      ⟨t.id, t.w, t.h, t.wSmall, t.hSmall,
        if r.found then some (r.x, r.y) else none, r.found⟩
  | none => ts

/-- `find_all` (`simple_match.py` lines 247-281): grab one frame (token =
the capture counter), derive the grayscale copy once and the downscaled
copy at most once, match every template against that same frame, then run
the per-template state update.  `os` maps a frame token and a template
index to the oracle for that template on that frame. -/
def findAll (cfg : Config) (ts : List TemplateState)
    (os : Nat → Nat → MatchOracle) (w : World) :
    List MatchResult × List TemplateState × World :=
  let frameTok := w.captures
  let w1 : World :=
    ⟨w.captures + 1,
      w.grayConvs + (if cfg.useGrayscale then 1 else 0),
      w.downscales + (if cfg.usePyramid then 1 else 0)⟩
  let rs := matchAll cfg (os frameTok) ts 0
  (rs, rs.foldl applyResult ts, w1)

end Tracker

namespace GameAgent

/-- An entity observation as published by the tracker service
(`tracker_service.py` lines 83-91): the dict
`{x, y, found, method, width, height}` stored per name. -/
structure Obs where
  x : ℤ
  y : ℤ
  found : Bool
  method : String
  width : ℤ
  height : ℤ
  deriving DecidableEq

/-- `GameState.update_entity` (`game_state.py` lines 21-29): Python dict
assignment — replace the whole value at `name` in place if the key exists,
otherwise append it (insertion order preserved). -/
def updateEntity (es : List (String × Obs)) (name : String) (o : Obs) :
    List (String × Obs) :=
  if es.any (fun p => p.1 = name) then
    es.map (fun p => if p.1 = name then (name, o) else p)
  else es ++ [(name, o)]

/-- `GameState.get_entity` (`game_state.py` lines 31-34). -/
def getEntity (es : List (String × Obs)) (name : String) : Option Obs :=
  List.lookup name es

/-- `GameState.get_all_entities` (`game_state.py` lines 36-39): returns
`dict(self._entities)` — a copy holding the same entries. -/
def getAllEntities (es : List (String × Obs)) : List (String × Obs) :=
  es

/-- `GameState.get_found_entities` (`game_state.py` lines 41-44). -/
def getFoundEntities (es : List (String × Obs)) : List (String × Obs) :=
  es.filter (fun p => p.2.found)

/-- The publication step of `TrackerService._tracking_loop`
(`tracker_service.py` lines 81-91): push one `MatchResult` into the shared
store under the template's name. -/
def publishResult (es : List (String × Obs)) (name : String)
    (r : Tracker.MatchResult) : List (String × Obs) :=
  updateEntity es name ⟨r.x, r.y, r.found, r.method, r.w, r.h⟩

end GameAgent

/-! ## Lemmas about the action reconciler -/

namespace GameAgent

lemma filter_touches_map (k : String) (f : String → Event)
    (hf : ∀ x, touchesKey k (f x) = decide (x = k)) :
    ∀ (l : List String), l.Nodup →
      (l.map f).filter (touchesKey k) = if k ∈ l then [f k] else []
  | [], _ => by simp
  | a :: t, h => by
    have ht := (List.nodup_cons.mp h).2
    have ha := (List.nodup_cons.mp h).1
    simp only [List.map_cons, List.filter_cons, hf a]
    by_cases hak : a = k
    · subst hak
      rw [filter_touches_map _ f hf t ht]
      simp [ha]
    · rw [filter_touches_map k f hf t ht]
      have : ¬ (k = a) := fun hh => hak hh.symm
      simp [hak, List.mem_cons, this]

lemma keyEvents_keyUp_sort (k : String) (fs : Finset String) :
    keyEvents k ((fs.sort (· ≤ ·)).map Event.keyUp)
      = if k ∈ fs then [Event.keyUp k] else [] := by
  unfold keyEvents
  rw [filter_touches_map k Event.keyUp (fun _ => rfl) _ (fs.sort_nodup _)]
  simp [Finset.mem_sort]

lemma keyEvents_keyDown_sort (k : String) (fs : Finset String) :
    keyEvents k ((fs.sort (· ≤ ·)).map Event.keyDown)
      = if k ∈ fs then [Event.keyDown k] else [] := by
  unfold keyEvents
  rw [filter_touches_map k Event.keyDown (fun _ => rfl) _ (fs.sort_nodup _)]
  simp [Finset.mem_sort]

lemma dashStep_keyEvents (k : String) (s : ActState) (ds : List String)
    (hd : ∀ d ∈ ds, dashKey d ≠ k) :
    keyEvents k (dashStep s ds).1 = [] := by
  cases ds with
  | nil => rfl
  | cons d rest =>
    have hdk : ¬ (dashKey d = k) := hd d (by simp)
    by_cases hmem : dashKey d ∈ s.heldKeys <;>
      simp [dashStep, keyEvents, touchesKey, hmem, hdk]

lemma dashStep_mem_held (k : String) (s : ActState) (ds : List String)
    (hd : ∀ d ∈ ds, dashKey d ≠ k) :
    (k ∈ (dashStep s ds).2.heldKeys ↔ k ∈ s.heldKeys) := by
  cases ds with
  | nil => exact Iff.rfl
  | cons d rest =>
    have hdk : ¬ (k = dashKey d) := fun hh => hd d (by simp) hh.symm
    by_cases hmem : dashKey d ∈ s.heldKeys <;>
      simp [dashStep, hmem, Finset.mem_erase, hdk]

lemma dashStep_mouseDown (s : ActState) (ds : List String) :
    (dashStep s ds).2.mouseDown = s.mouseDown := by
  cases ds with
  | nil => rfl
  | cons d rest =>
    by_cases hmem : dashKey d ∈ s.heldKeys <;> simp [dashStep, hmem]

lemma keyEvents_append (k : String) (a b : List Event) :
    keyEvents k (a ++ b) = keyEvents k a ++ keyEvents k b := by
  simp [keyEvents]

lemma reconcileStep_keyEvents (k : String) (s : ActState) (desired : Finset String) :
    keyEvents k (reconcileStep s desired).1 =
      (if k ∈ s.heldKeys \ desired then [Event.keyUp k] else [])
        ++ (if k ∈ desired \ s.heldKeys then [Event.keyDown k] else []) := by
  show keyEvents k ((((s.heldKeys \ desired).sort (· ≤ ·)).map Event.keyUp)
      ++ (((desired \ s.heldKeys).sort (· ≤ ·)).map Event.keyDown)) = _
  rw [keyEvents_append, keyEvents_keyUp_sort, keyEvents_keyDown_sort]

lemma aimStep_keyEvents (k : String) (mt : Option (Int × Int)) :
    keyEvents k (aimStep mt) = [] := by
  cases mt with
  | none => rfl
  | some p => cases p with
    | mk x y => simp [aimStep, keyEvents, touchesKey]

lemma buttonStep_keyEvents (k : String) (s : ActState) (w : Bool) :
    keyEvents k (buttonStep s w).1 = [] := by
  unfold buttonStep
  split_ifs <;> simp [keyEvents, touchesKey]

lemma buttonStep_heldKeys (s : ActState) (w : Bool) :
    (buttonStep s w).2.heldKeys = s.heldKeys := by
  unfold buttonStep
  split_ifs <;> rfl

lemma flush_heldKeys (s : ActState) (it : Intent) :
    (flush s it).2.heldKeys = it.desiredKeys := by
  unfold flush
  rw [buttonStep_heldKeys]
  rfl

lemma flush_keyEvents (k : String) (s : ActState) (it : Intent)
    (hd : ∀ d ∈ it.queuedDashes, dashKey d ≠ k) :
    keyEvents k (flush s it).1 =
      if k ∈ it.desiredKeys then
        (if k ∈ s.heldKeys then [] else [Event.keyDown k])
      else
        (if k ∈ s.heldKeys then [Event.keyUp k] else []) := by
  have h1 := dashStep_keyEvents k s it.queuedDashes hd
  have h2 := dashStep_mem_held k s it.queuedDashes hd
  show keyEvents k ((dashStep s it.queuedDashes).1
      ++ (reconcileStep (dashStep s it.queuedDashes).2 it.desiredKeys).1
      ++ aimStep it.mouseTarget
      ++ (buttonStep (reconcileStep (dashStep s it.queuedDashes).2
            it.desiredKeys).2 it.wantAttack).1) = _
  rw [keyEvents_append, keyEvents_append, keyEvents_append, h1,
    reconcileStep_keyEvents, aimStep_keyEvents, buttonStep_keyEvents]
  simp only [List.append_nil, List.nil_append, Finset.mem_sdiff, h2]
  by_cases hdes : k ∈ it.desiredKeys <;> by_cases hheld : k ∈ s.heldKeys <;>
    simp [hdes, hheld]

end GameAgent

namespace GameAgent

lemma flushRun_length (s : ActState) (its : List Intent) :
    (flushRun s its).1.length = its.length := by
  induction its generalizing s with
  | nil => rfl
  | cons it rest ih => simp [flushRun, ih]

lemma stateAfter_zero (s : ActState) (its : List Intent) :
    stateAfter s its 0 = s := rfl

lemma stateAfter_succ_cons (s : ActState) (it : Intent) (rest : List Intent) (m : Nat) :
    stateAfter s (it :: rest) (m + 1) = stateAfter (flush s it).2 rest m := by
  simp [stateAfter, flushRun]

lemma flushRun_getD (s : ActState) (its : List Intent) (n : Nat)
    (h : n < its.length) :
    (flushRun s its).1.getD n [] =
      (flush (stateAfter s its n) (its.getD n default)).1 := by
  induction its generalizing s n with
  | nil => simp at h
  | cons it rest ih =>
    cases n with
    | zero => simp [flushRun, stateAfter]
    | succ m =>
      have hm : m < rest.length := by simpa using h
      have := ih (flush s it).2 m hm
      simpa [flushRun, stateAfter_succ_cons] using this

lemma stateAfter_heldKeys (s : ActState) (its : List Intent) (m : Nat)
    (h : m < its.length) :
    (stateAfter s its (m + 1)).heldKeys = (its.getD m default).desiredKeys := by
  induction its generalizing s m with
  | nil => simp at h
  | cons it rest ih =>
    cases m with
    | zero =>
      rw [stateAfter_succ_cons, stateAfter_zero]
      simpa using flush_heldKeys s it
    | succ m' =>
      have hm : m' < rest.length := by simpa using h
      rw [stateAfter_succ_cons]
      simpa using ih (flush s it).2 m' hm

/-- C2: over a run of consecutive `flush` calls with no dash queued on key
`k`, declaring `k` desired exactly on frames `i` through `j` issues one
key-down at frame `i`, one key-up at frame `j + 1` (the first flush where
`k` is no longer declared, if the run reaches it), and no device event for
`k` at any other frame. -/
theorem key_intent_idempotent (s0 : ActState) (its : List Intent) (k : String)
    (i j : Nat) (hij : i ≤ j)
    (hdash : ∀ it ∈ its, ∀ d ∈ it.queuedDashes, dashKey d ≠ k)
    (hheld0 : k ∉ s0.heldKeys)
    (hdes : ∀ n, n < its.length →
      (k ∈ (its.getD n default).desiredKeys ↔ (i ≤ n ∧ n ≤ j))) :
    ∀ n, n < its.length →
      keyEvents k ((flushRun s0 its).1.getD n []) =
        if n = i then [Event.keyDown k]
        else if n = j + 1 then [Event.keyUp k]
        else [] := by
  intro n hn
  have hmem : its.getD n default ∈ its := by
    rw [List.getD_eq_getElem its default hn]
    exact List.getElem_mem hn
  rw [flushRun_getD s0 its n hn,
    flush_keyEvents k _ _ (hdash _ hmem)]
  cases n with
  | zero =>
    rw [stateAfter_zero]
    simp only [hdes 0 hn]
    by_cases hi : i = 0
    · subst hi
      have hw : (0 : Nat) ≤ 0 ∧ 0 ≤ j := ⟨le_refl 0, Nat.zero_le j⟩
      simp [hw, hheld0]
    · have h1 : ¬ (i ≤ 0 ∧ 0 ≤ j) := by omega
      have h2 : ¬ ((0 : Nat) = i) := by omega
      have h3 : ¬ ((0 : Nat) = j + 1) := by omega
      simp [h1, h2, h3, hheld0, hi]
  | succ m =>
    have hm : m < its.length := by omega
    have hheld : (stateAfter s0 its (m + 1)).heldKeys
        = (its.getD m default).desiredKeys := stateAfter_heldKeys s0 its m hm
    simp only [hdes (m + 1) hn, hheld, hdes m hm]
    by_cases hc1 : i ≤ m + 1 ∧ m + 1 ≤ j
    all_goals by_cases hc2 : i ≤ m ∧ m ≤ j
    all_goals simp only [hc1, hc2, if_true, if_false]
    · have h2 : ¬ (m + 1 = i) := by omega
      have h3 : ¬ (m + 1 = j + 1) := by omega
      simp [h2, h3]
    · have h2 : m + 1 = i := by omega
      simp [h2]
    · have h3 : m + 1 = j + 1 := by omega
      have h2 : ¬ (m + 1 = i) := by omega
      have h4 : ¬ (j + 1 = i) := by omega
      simp [h2, h3, h4]
    · have h2 : ¬ (m + 1 = i) := by omega
      have h3 : ¬ (m + 1 = j + 1) := by omega
      simp [h2, h3]

/-- Witness for C2 at a concrete three-frame run: key "a" desired on frames
0 and 1, omitted on frame 2 — the frame-2 flush issues exactly the one
key-up. -/
theorem key_intent_idempotent_wit :
    keyEvents "a"
        ((flushRun ⟨∅, false⟩
          [⟨{"a"}, none, false, []⟩, ⟨{"a"}, none, false, []⟩,
            ⟨∅, none, false, []⟩]).1.getD 2 [])
      = [Event.keyUp "a"] := by
  have h := key_intent_idempotent ⟨∅, false⟩
    [⟨{"a"}, none, false, []⟩, ⟨{"a"}, none, false, []⟩, ⟨∅, none, false, []⟩]
    "a" 0 1 (by decide) (by decide) (by decide) (by decide) 2 (by decide)
  simpa using h

end GameAgent

namespace GameAgent

lemma filter_isPress_keyUpMap (l : List String) :
    (l.map Event.keyUp).filter isPress = [] := by
  induction l with
  | nil => rfl
  | cons a t ih => simp [isPress, ih]

lemma filter_isPress_keyDownMap (l : List String) :
    (l.map Event.keyDown).filter isPress = [] := by
  induction l with
  | nil => rfl
  | cons a t ih => simp [isPress, ih]

lemma noDashFlush_noPress (s : ActState) (it : Intent)
    (hq : it.queuedDashes = []) :
    (flush s it).1.filter isPress = [] := by
  show ((dashStep s it.queuedDashes).1
      ++ (reconcileStep (dashStep s it.queuedDashes).2 it.desiredKeys).1
      ++ aimStep it.mouseTarget
      ++ (buttonStep (reconcileStep (dashStep s it.queuedDashes).2
            it.desiredKeys).2 it.wantAttack).1).filter isPress = []
  rw [hq]
  show ((reconcileStep s it.desiredKeys).1
      ++ aimStep it.mouseTarget
      ++ (buttonStep (reconcileStep s it.desiredKeys).2 it.wantAttack).1).filter
        isPress = []
  rw [List.filter_append, List.filter_append]
  rw [show (reconcileStep s it.desiredKeys).1
      = ((s.heldKeys \ it.desiredKeys).sort (· ≤ ·)).map Event.keyUp
        ++ ((it.desiredKeys \ s.heldKeys).sort (· ≤ ·)).map Event.keyDown from rfl]
  rw [List.filter_append, filter_isPress_keyUpMap, filter_isPress_keyDownMap]
  have ha : (aimStep it.mouseTarget).filter isPress = [] := by
    cases hmt : it.mouseTarget with
    | none => rfl
    | some p => cases p with
      | mk x y => simp [aimStep, isPress]
  have hb : ((buttonStep (reconcileStep s it.desiredKeys).2 it.wantAttack).1).filter
      isPress = [] := by
    unfold buttonStep
    split_ifs <;> simp [isPress]
  rw [ha, hb]
  rfl

/-- C3: when at least one dash is queued, `flush` executes exactly one
double-tap, using the first queued direction: it first issues a key-up for
that movement key if it is currently held, then press / fixed pause /
press, and proceeds exactly like a dash-free flush from the state with that
key released; every further queued dash is discarded without effect. -/
theorem dash_flush_once (s : ActState) (it : Intent) (d : String)
    (ds : List String) (hq : it.queuedDashes = d :: ds) :
    (flush s it).1 =
        (if dashKey d ∈ s.heldKeys then [Event.keyUp (dashKey d)] else [])
          ++ [Event.press (dashKey d), Event.sleep, Event.press (dashKey d)]
          ++ (flush ⟨s.heldKeys.erase (dashKey d), s.mouseDown⟩
                ⟨it.desiredKeys, it.mouseTarget, it.wantAttack, []⟩).1
      ∧ (flush s it).2 =
          (flush ⟨s.heldKeys.erase (dashKey d), s.mouseDown⟩
            ⟨it.desiredKeys, it.mouseTarget, it.wantAttack, []⟩).2
      ∧ (flush s it).1.filter isPress
          = [Event.press (dashKey d), Event.press (dashKey d)]
      ∧ flush s it
          = flush s ⟨it.desiredKeys, it.mouseTarget, it.wantAttack, [d]⟩ := by
  obtain ⟨dk, mt, wa, qd⟩ := it
  simp only at hq
  subst hq
  have hdash : dashStep s (d :: ds)
      = ((if dashKey d ∈ s.heldKeys then [Event.keyUp (dashKey d)] else [])
          ++ [Event.press (dashKey d), Event.sleep, Event.press (dashKey d)],
        ⟨s.heldKeys.erase (dashKey d), s.mouseDown⟩) := by
    by_cases hmem : dashKey d ∈ s.heldKeys
    · simp [dashStep, hmem]
    · simp [dashStep, hmem, Finset.erase_eq_of_not_mem hmem]
  refine ⟨?_, ?_, ?_, ?_⟩
  · show (dashStep s (d :: ds)).1
        ++ (reconcileStep (dashStep s (d :: ds)).2 dk).1
        ++ aimStep mt
        ++ (buttonStep (reconcileStep (dashStep s (d :: ds)).2 dk).2 wa).1 = _
    rw [hdash]
    simp [flush, dashStep]
  · show (buttonStep (reconcileStep (dashStep s (d :: ds)).2 dk).2 wa).2 = _
    rw [hdash]
    simp [flush, dashStep]
  · show ((dashStep s (d :: ds)).1
        ++ (reconcileStep (dashStep s (d :: ds)).2 dk).1
        ++ aimStep mt
        ++ (buttonStep (reconcileStep (dashStep s (d :: ds)).2 dk).2 wa).1).filter
          isPress = _
    rw [hdash]
    rw [List.filter_append, List.filter_append, List.filter_append]
    have hrest := noDashFlush_noPress ⟨s.heldKeys.erase (dashKey d), s.mouseDown⟩
      ⟨dk, mt, wa, []⟩ rfl
    have hrest' : ((reconcileStep (⟨s.heldKeys.erase (dashKey d), s.mouseDown⟩
          : ActState) dk).1).filter isPress = []
        ∧ (aimStep mt).filter isPress = []
        ∧ ((buttonStep (reconcileStep (⟨s.heldKeys.erase (dashKey d), s.mouseDown⟩
            : ActState) dk).2 wa).1).filter isPress = [] := by
      have h := hrest
      rw [show (flush (⟨s.heldKeys.erase (dashKey d), s.mouseDown⟩ : ActState)
            ⟨dk, mt, wa, []⟩).1
          = (reconcileStep (⟨s.heldKeys.erase (dashKey d), s.mouseDown⟩
              : ActState) dk).1
            ++ aimStep mt
            ++ (buttonStep (reconcileStep (⟨s.heldKeys.erase (dashKey d),
                s.mouseDown⟩ : ActState) dk).2 wa).1 from rfl] at h
      rw [List.filter_append, List.filter_append] at h
      rcases List.append_eq_nil.mp h with ⟨hab, hc⟩
      rcases List.append_eq_nil.mp hab with ⟨ha2, hb2⟩
      exact ⟨ha2, hb2, hc⟩
    rw [hrest'.1, hrest'.2.1, hrest'.2.2]
    by_cases hmem : dashKey d ∈ s.heldKeys <;> simp [hmem, isPress]
  · show flush s ⟨dk, mt, wa, d :: ds⟩ = flush s ⟨dk, mt, wa, [d]⟩
    rfl

/-- Witness for C3: with the "a" key held and two dashes queued in one
frame, `flush` emits the release of "a", then exactly one double-tap of
"a" (the first queued direction, left); the queued right-dash is
discarded. -/
theorem dash_flush_once_wit :
    (flush ⟨{"a"}, false⟩ ⟨∅, none, false, ["left", "right"]⟩).1.filter isPress
        = [Event.press "a", Event.press "a"]
      ∧ flush ⟨{"a"}, false⟩ ⟨∅, none, false, ["left", "right"]⟩
          = flush ⟨{"a"}, false⟩ ⟨∅, none, false, ["left"]⟩ := by
  have h := dash_flush_once ⟨{"a"}, false⟩ ⟨∅, none, false, ["left", "right"]⟩
    "left" ["right"] rfl
  exact ⟨by simpa using h.2.2.1, by simpa using h.2.2.2⟩

end GameAgent

namespace GameAgent

lemma loopFrames_no_abort (s : ActState) (fs : List FrameInput)
    (hnr : ∀ f ∈ fs, f.frameRaises = false) :
    (loopFrames s fs).traces.length = fs.length
      ∧ (loopFrames s fs).aborted = false := by
  induction fs generalizing s with
  | nil => exact ⟨rfl, rfl⟩
  | cons f rest ih =>
    have hf : f.frameRaises = false := hnr f (by simp)
    have hr : ∀ g ∈ rest, g.frameRaises = false := fun g hg => hnr g (by simp [hg])
    have := ih (frameEvents s f).2 hr
    simp [loopFrames, hf, this.1, this.2]

lemma loopFrames_getD (s : ActState) (fs : List FrameInput) (n : Nat)
    (hn : n < fs.length) (hnr : ∀ f ∈ fs, f.frameRaises = false) :
    (loopFrames s fs).traces.getD n [] =
      (frameEvents ((loopFrames s (fs.take n)).state) (fs.getD n default)).1 := by
  induction fs generalizing s n with
  | nil => simp at hn
  | cons f rest ih =>
    have hf : f.frameRaises = false := hnr f (by simp)
    have hr : ∀ g ∈ rest, g.frameRaises = false := fun g hg => hnr g (by simp [hg])
    cases n with
    | zero => simp [loopFrames, hf]
    | succ m =>
      have hm : m < rest.length := by simpa using hn
      have := ih (frameEvents s f).2 m hm hr
      simpa [loopFrames, hf] using this

/-- C7: in the shared frame loop of both run modes (`run_script_loop` and
`run_script_timed`), a frame whose policy `run()` raises is caught and
logged for that frame, `flush()` still executes that frame from the state
the loop had reached, and the loop still processes every frame of the run
instead of aborting; both modes end the trace with the `finally`-style
`release_all` events. -/
theorem policy_error_isolated (s : ActState) (fs : List FrameInput)
    (hnr : ∀ f ∈ fs, f.frameRaises = false) :
    ((loopFrames s fs).traces.length = fs.length
        ∧ (loopFrames s fs).aborted = false)
      ∧ (∀ n, n < fs.length → ∀ e,
          (fs.getD n default).policyError = some e →
            (loopFrames s fs).traces.getD n []
              = Event.log e
                  :: (flush ((loopFrames s (fs.take n)).state)
                        (fs.getD n default).intent).1)
      ∧ (runScriptTimed s fs).traces
          = (loopFrames s fs).traces ++ [(releaseAll (loopFrames s fs).state).1]
      ∧ (scriptRunnerMain s fs).traces
          = (loopFrames s fs).traces ++ [(releaseAll (loopFrames s fs).state).1] := by
  refine ⟨loopFrames_no_abort s fs hnr, ?_, rfl, rfl⟩
  intro n hn e hpe
  rw [loopFrames_getD s fs n hn hnr]
  show (match (fs.getD n default).policyError with
      | some e =>
        Event.log e
          :: (flush ((loopFrames s (fs.take n)).state)
                (fs.getD n default).intent).1
      | none =>
        (flush ((loopFrames s (fs.take n)).state)
          (fs.getD n default).intent).1) = _
  rw [hpe]

/-- Witness for C7: a two-frame run whose first frame's policy raises
"boom" — the first frame's trace is exactly the log entry followed by that
frame's (here empty) flush events, and both frames are still processed. -/
theorem policy_error_isolated_wit :
    (loopFrames ⟨∅, false⟩
          [⟨⟨∅, none, false, []⟩, some "boom", false⟩,
            ⟨⟨∅, none, false, []⟩, none, false⟩]).traces.length = 2
      ∧ (loopFrames ⟨∅, false⟩
          [⟨⟨∅, none, false, []⟩, some "boom", false⟩,
            ⟨⟨∅, none, false, []⟩, none, false⟩]).traces.getD 0 []
          = [Event.log "boom"] := by
  have h := policy_error_isolated ⟨∅, false⟩
    [⟨⟨∅, none, false, []⟩, some "boom", false⟩,
      ⟨⟨∅, none, false, []⟩, none, false⟩]
    (by decide)
  have h2 := h.2.1 0 (by decide) "boom" rfl
  have h3 : (flush (⟨∅, false⟩ : ActState) ⟨∅, none, false, []⟩).1 = [] := by
    simp [flush, dashStep, reconcileStep, aimStep, buttonStep, Finset.sort_empty]
  exact ⟨by simpa using h.1.1, by rw [h2]; simp [List.take_zero, loopFrames, h3]⟩

/-- C8: both run-loop modes — `run_script_timed` via its own `finally`, and
the CLI `run_script_loop` via `main`'s `finally` — perform `release_all` as
the last step on every exit path (normal stop, KeyboardInterrupt, or a
propagating frame exception), so no key or mouse button remains held when
either loop terminates. -/
theorem loops_release_on_exit (s : ActState) (fs : List FrameInput) :
    (runScriptTimed s fs).state.heldKeys = ∅
      ∧ (runScriptTimed s fs).state.mouseDown = false
      ∧ (scriptRunnerMain s fs).state.heldKeys = ∅
      ∧ (scriptRunnerMain s fs).state.mouseDown = false
      ∧ (runScriptTimed s fs).traces.getLast?
          = some ((releaseAll (loopFrames s fs).state).1)
      ∧ (scriptRunnerMain s fs).traces.getLast?
          = some ((releaseAll (loopFrames s fs).state).1) := by
  refine ⟨rfl, rfl, rfl, rfl, ?_, ?_⟩ <;>
    simp [runScriptTimed, scriptRunnerMain]

end GameAgent

/-! ## Lemmas about the hierarchical tracker -/

namespace Tracker

lemma heuristicTier_noLastPos (cfg : Config) (t : TemplateState) (o : MatchOracle)
    (h : t.lastPos = none) : heuristicTier cfg t o = (none, []) := by
  unfold heuristicTier
  rw [h]

lemma heuristicTier_calls (cfg : Config) (t : TemplateState) (o : MatchOracle) :
    (heuristicTier cfg t o).2 = [] ∨ (heuristicTier cfg t o).2 = [TierCall.roi] := by
  unfold heuristicTier
  cases t.lastPos with
  | none => simp
  | some p =>
    obtain ⟨lx, ly⟩ := p
    dsimp only
    split_ifs <;> simp

lemma heuristicTier_some (cfg : Config) (t : TemplateState) (o : MatchOracle)
    (r : MatchResult) (h : (heuristicTier cfg t o).1 = some r) :
    r.method = "Heuristic" ∧ r.found = true ∧ r.id = t.id
      ∧ (heuristicTier cfg t o).2 = [TierCall.roi]
      ∧ cfg.confidence ≤ o.roiScore := by
  unfold heuristicTier at h ⊢
  cases hlp : t.lastPos with
  | none =>
    rw [hlp] at h
    dsimp only at h
    exact Option.noConfusion h
  | some p =>
    obtain ⟨lx, ly⟩ := p
    rw [hlp] at h
    dsimp only at h ⊢
    split_ifs at h ⊢ with h1 h2
    · obtain rfl := Option.some_injective _ h
      exact ⟨rfl, rfl, rfl, rfl, h2⟩

lemma pyramidTier_notEnabled (cfg : Config) (t : TemplateState) (fs : Bool)
    (o : MatchOracle) (h : ¬ (cfg.usePyramid = true ∧ fs = true)) :
    pyramidTier cfg t fs o = (none, []) := by
  unfold pyramidTier
  rw [if_neg h]

lemma pyramidTier_calls (cfg : Config) (t : TemplateState) (fs : Bool)
    (o : MatchOracle) :
    (pyramidTier cfg t fs o).2 = []
      ∨ (pyramidTier cfg t fs o).2 = [TierCall.coarse]
      ∨ (pyramidTier cfg t fs o).2 = [TierCall.coarse, TierCall.refine] := by
  unfold pyramidTier
  dsimp only
  split_ifs <;> simp

lemma pyramidTier_calls_enabled (cfg : Config) (t : TemplateState) (fs : Bool)
    (o : MatchOracle) (h : (pyramidTier cfg t fs o).2 ≠ []) :
    cfg.usePyramid = true ∧ fs = true := by
  by_contra hc
  exact h (by rw [pyramidTier_notEnabled cfg t fs o hc])

lemma pyramidTier_refineCall (cfg : Config) (t : TemplateState) (fs : Bool)
    (o : MatchOracle) (h : TierCall.refine ∈ (pyramidTier cfg t fs o).2) :
    cfg.confidence * (9 / 10) ≤ o.coarseScore := by
  unfold pyramidTier at h
  dsimp only at h
  split_ifs at h with h1 h2 h3 h4 h5 <;> simp_all

lemma pyramidTier_some (cfg : Config) (t : TemplateState) (fs : Bool)
    (o : MatchOracle) (r : MatchResult)
    (h : (pyramidTier cfg t fs o).1 = some r) :
    r.method = "Pyramid" ∧ r.found = true ∧ r.id = t.id
      ∧ r.score = o.refineScore
      ∧ cfg.confidence ≤ o.refineScore
      ∧ cfg.confidence * (9 / 10) ≤ o.coarseScore
      ∧ (pyramidTier cfg t fs o).2 = [TierCall.coarse, TierCall.refine]
      ∧ r.x = max 0 (⌊(o.coarseLoc.1 : ℚ) * (1 / cfg.downscaleFactor)⌋
            - max 20 ⌊(50 : ℚ) / cfg.downscaleFactor⌋) + o.refineLoc.1
      ∧ r.y = max 0 (⌊(o.coarseLoc.2 : ℚ) * (1 / cfg.downscaleFactor)⌋
            - max 20 ⌊(50 : ℚ) / cfg.downscaleFactor⌋) + o.refineLoc.2 := by
  unfold pyramidTier at h ⊢
  dsimp only at h ⊢
  split_ifs at h ⊢ with h1 h2 h3 h4 h5
  · obtain rfl := Option.some_injective _ h
    exact ⟨rfl, rfl, rfl, rfl, h5, h3, rfl, rfl, rfl⟩

lemma pyramidTier_refineFail (cfg : Config) (t : TemplateState) (fs : Bool)
    (o : MatchOracle) (h : o.refineScore < cfg.confidence) :
    (pyramidTier cfg t fs o).1 = none := by
  unfold pyramidTier
  dsimp only
  split_ifs with h1 h2 h3 h4 h5
  · exact absurd h5 (not_le.mpr h)
  all_goals rfl

lemma fullScanTier_skip (cfg : Config) (t : TemplateState) (o : MatchOracle)
    (h : cfg.skipFullScan = true) : fullScanTier cfg t o = (none, []) := by
  unfold fullScanTier
  rw [if_neg (by simp [h])]

lemma fullScanTier_calls (cfg : Config) (t : TemplateState) (o : MatchOracle) :
    (fullScanTier cfg t o).2 = [] ∨ (fullScanTier cfg t o).2 = [TierCall.fullScan] := by
  unfold fullScanTier
  split_ifs <;> simp

lemma fullScanTier_calls_enabled (cfg : Config) (t : TemplateState)
    (o : MatchOracle) (h : (fullScanTier cfg t o).2 ≠ []) :
    cfg.skipFullScan = false := by
  by_cases hs : cfg.skipFullScan = true
  · exact absurd (by rw [fullScanTier_skip cfg t o hs]) h
  · simpa using hs

lemma fullScanTier_some (cfg : Config) (t : TemplateState) (o : MatchOracle)
    (r : MatchResult) (h : (fullScanTier cfg t o).1 = some r) :
    r.method = "Full Scan" ∧ r.found = true ∧ r.id = t.id
      ∧ cfg.confidence ≤ o.fullScore
      ∧ (fullScanTier cfg t o).2 = [TierCall.fullScan] := by
  unfold fullScanTier at h ⊢
  split_ifs at h ⊢ with h1 h2 h3
  · obtain rfl := Option.some_injective _ h
    exact ⟨rfl, rfl, rfl, h3, rfl⟩

end Tracker

namespace Tracker

lemma heuristicTier_roi_lastPos (cfg : Config) (t : TemplateState)
    (o : MatchOracle) (h : TierCall.roi ∈ (heuristicTier cfg t o).2) :
    t.lastPos ≠ none := by
  intro hn
  rw [heuristicTier_noLastPos cfg t o hn] at h
  simp at h

/-- C1: `_match_one` evaluates the tiers strictly in order — heuristic ROI
only when `last_pos` is set, then pyramid only when enabled (with the
shared downscaled frame present), then full scan only when not skipped; the
first tier to clear its threshold returns with its provenance tag and no
later tier's matching call is made; if no tier succeeds the result is the
not-found record with tag "Not Found". -/
theorem tracker_tier_order (cfg : Config) (t : TemplateState) (fsAvail : Bool)
    (o : MatchOracle) (r : MatchResult) (calls : List TierCall)
    (h : matchOne cfg t fsAvail o = (r, calls)) :
    calls.Sublist [TierCall.roi, TierCall.coarse, TierCall.refine, TierCall.fullScan]
      ∧ (TierCall.roi ∈ calls → t.lastPos ≠ none)
      ∧ ((TierCall.coarse ∈ calls ∨ TierCall.refine ∈ calls) →
          cfg.usePyramid = true ∧ fsAvail = true)
      ∧ (TierCall.fullScan ∈ calls → cfg.skipFullScan = false)
      ∧ (r.method = "Heuristic" → r.found = true ∧ calls = [TierCall.roi])
      ∧ (r.method = "Pyramid" → r.found = true ∧ TierCall.fullScan ∉ calls
          ∧ TierCall.coarse ∈ calls ∧ TierCall.refine ∈ calls)
      ∧ (r.method = "Full Scan" → r.found = true ∧ TierCall.fullScan ∈ calls)
      ∧ (r.found = false → r = notFound t ∧ r.method = "Not Found")
      ∧ (r.found = true → r.method = "Heuristic" ∨ r.method = "Pyramid"
          ∨ r.method = "Full Scan") := by
  rcases hH : heuristicTier cfg t o with ⟨ho, c1⟩
  have hc1 : (heuristicTier cfg t o).2 = c1 := by rw [hH]
  have hc1forms : c1 = [] ∨ c1 = [TierCall.roi] := hc1 ▸ heuristicTier_calls cfg t o
  cases ho with
  | some rh =>
    have hs := heuristicTier_some cfg t o rh (by rw [hH])
    have hm : matchOne cfg t fsAvail o = (rh, c1) := by
      simp only [matchOne, hH]
    rw [hm] at h
    injection h with h1 h2
    subst h1; subst h2
    have hcr : c1 = [TierCall.roi] := by rw [← hc1]; exact hs.2.2.2.1
    subst hcr
    refine ⟨by decide, ?_, ?_, ?_, ?_, ?_, ?_, ?_, ?_⟩
    · intro hmem
      exact heuristicTier_roi_lastPos cfg t o (by rw [hc1]; exact hmem)
    · intro hmem; simp at hmem
    · intro hmem; simp at hmem
    · intro _; exact ⟨hs.2.1, rfl⟩
    · intro hmet; rw [hs.1] at hmet; exact absurd hmet (by decide)
    · intro hmet; rw [hs.1] at hmet; exact absurd hmet (by decide)
    · intro hf; rw [hs.2.1] at hf; exact absurd hf (by decide)
    · intro _; exact Or.inl hs.1
  | none =>
    rcases hP : pyramidTier cfg t fsAvail o with ⟨po, c2⟩
    have hc2 : (pyramidTier cfg t fsAvail o).2 = c2 := by rw [hP]
    have hc2forms : c2 = [] ∨ c2 = [TierCall.coarse]
        ∨ c2 = [TierCall.coarse, TierCall.refine] :=
      hc2 ▸ pyramidTier_calls cfg t fsAvail o
    cases po with
    | some rp =>
      have hs := pyramidTier_some cfg t fsAvail o rp (by rw [hP])
      have hm : matchOne cfg t fsAvail o = (rp, c1 ++ c2) := by
        simp only [matchOne, hH, hP]
      rw [hm] at h
      injection h with h1 h2
      subst h1; subst h2
      have hcr : c2 = [TierCall.coarse, TierCall.refine] := by
        rw [← hc2]; exact hs.2.2.2.2.2.2.1
      subst hcr
      have henb : cfg.usePyramid = true ∧ fsAvail = true :=
        pyramidTier_calls_enabled cfg t fsAvail o (by rw [hc2]; simp)
      refine ⟨?_, ?_, ?_, ?_, ?_, ?_, ?_, ?_, ?_⟩
      · rcases hc1forms with hc | hc <;> subst hc <;> decide
      · intro hmem
        have hroi : TierCall.roi ∈ c1 := by
          rcases hc1forms with hc | hc <;> subst hc <;> simpa using hmem
        exact heuristicTier_roi_lastPos cfg t o (by rw [hc1]; exact hroi)
      · intro _; exact henb
      · intro hmem
        rcases hc1forms with hc | hc <;> subst hc <;> simp at hmem
      · intro hmet; rw [hs.1] at hmet; exact absurd hmet (by decide)
      · intro _
        refine ⟨hs.2.1, ?_, ?_, ?_⟩
        · rcases hc1forms with hc | hc <;> subst hc <;> decide
        · rcases hc1forms with hc | hc <;> subst hc <;> decide
        · rcases hc1forms with hc | hc <;> subst hc <;> decide
      · intro hmet; rw [hs.1] at hmet; exact absurd hmet (by decide)
      · intro hf; rw [hs.2.1] at hf; exact absurd hf (by decide)
      · intro _; exact Or.inr (Or.inl hs.1)
    | none =>
      rcases hF : fullScanTier cfg t o with ⟨fo, c3⟩
      have hc3 : (fullScanTier cfg t o).2 = c3 := by rw [hF]
      have hc3forms : c3 = [] ∨ c3 = [TierCall.fullScan] :=
        hc3 ▸ fullScanTier_calls cfg t o
      cases fo with
      | some rf =>
        have hs := fullScanTier_some cfg t o rf (by rw [hF])
        have hm : matchOne cfg t fsAvail o = (rf, c1 ++ c2 ++ c3) := by
          simp only [matchOne, hH, hP, hF]
        rw [hm] at h
        injection h with h1 h2
        subst h1; subst h2
        have hcr : c3 = [TierCall.fullScan] := by rw [← hc3]; exact hs.2.2.2.2
        subst hcr
        refine ⟨?_, ?_, ?_, ?_, ?_, ?_, ?_, ?_, ?_⟩
        · rcases hc1forms with hc | hc <;> subst hc <;>
            rcases hc2forms with hc' | hc' | hc' <;> subst hc' <;> decide
        · intro hmem
          have hroi : TierCall.roi ∈ c1 := by
            rcases hc1forms with hc | hc <;> subst hc <;>
              rcases hc2forms with hc' | hc' | hc' <;> subst hc' <;>
              simpa using hmem
          exact heuristicTier_roi_lastPos cfg t o (by rw [hc1]; exact hroi)
        · intro hmem
          have hin : c2 ≠ [] := by
            rcases hc1forms with hc | hc <;> subst hc <;>
              rcases hc2forms with hc' | hc' | hc' <;> subst hc' <;>
              simp_all
          exact pyramidTier_calls_enabled cfg t fsAvail o (by rw [hc2]; exact hin)
        · intro _
          exact fullScanTier_calls_enabled cfg t o (by rw [hc3]; simp)
        · intro hmet; rw [hs.1] at hmet; exact absurd hmet (by decide)
        · intro hmet; rw [hs.1] at hmet; exact absurd hmet (by decide)
        · intro _
          refine ⟨hs.2.1, ?_⟩
          rcases hc1forms with hc | hc <;> subst hc <;>
            rcases hc2forms with hc' | hc' | hc' <;> subst hc' <;> decide
        · intro hf; rw [hs.2.1] at hf; exact absurd hf (by decide)
        · intro _; exact Or.inr (Or.inr hs.1)
      | none =>
        have hm : matchOne cfg t fsAvail o = (notFound t, c1 ++ c2 ++ c3) := by
          simp only [matchOne, hH, hP, hF]
        rw [hm] at h
        injection h with h1 h2
        subst h1; subst h2
        refine ⟨?_, ?_, ?_, ?_, ?_, ?_, ?_, ?_, ?_⟩
        · rcases hc1forms with hc | hc <;> subst hc <;>
            rcases hc2forms with hc' | hc' | hc' <;> subst hc' <;>
            rcases hc3forms with hc'' | hc'' <;> subst hc'' <;> decide
        · intro hmem
          have hroi : TierCall.roi ∈ c1 := by
            rcases hc1forms with hc | hc <;> subst hc <;>
              rcases hc2forms with hc' | hc' | hc' <;> subst hc' <;>
              rcases hc3forms with hc'' | hc'' <;> subst hc'' <;>
              simpa using hmem
          exact heuristicTier_roi_lastPos cfg t o (by rw [hc1]; exact hroi)
        · intro hmem
          have hin : c2 ≠ [] := by
            rcases hc1forms with hc | hc <;> subst hc <;>
              rcases hc2forms with hc' | hc' | hc' <;> subst hc' <;>
              rcases hc3forms with hc'' | hc'' <;> subst hc'' <;>
              simp_all
          exact pyramidTier_calls_enabled cfg t fsAvail o (by rw [hc2]; exact hin)
        · intro hmem
          have hin : c3 ≠ [] := by
            rcases hc1forms with hc | hc <;> subst hc <;>
              rcases hc2forms with hc' | hc' | hc' <;> subst hc' <;>
              rcases hc3forms with hc'' | hc'' <;> subst hc'' <;>
              simp_all
          exact fullScanTier_calls_enabled cfg t o (by rw [hc3]; exact hin)
        · intro hmet
          rw [show (notFound t).method = "Not Found" from rfl] at hmet
          exact absurd hmet (by decide)
        · intro hmet
          rw [show (notFound t).method = "Not Found" from rfl] at hmet
          exact absurd hmet (by decide)
        · intro hmet
          rw [show (notFound t).method = "Not Found" from rfl] at hmet
          exact absurd hmet (by decide)
        · intro _; exact ⟨rfl, rfl⟩
        · intro hf
          rw [show (notFound t).found = false from rfl] at hf
          exact absurd hf (by decide)

end Tracker

namespace Tracker

/-- Witness for C1: a concrete frame where the heuristic ROI tier clears the
threshold — only the ROI matching call is made and its tag is returned. -/
theorem tracker_tier_order_wit :
    (⟨0, 5, 5, 2, 2, some (10, 10), false⟩ : TemplateState).lastPos ≠ none
      ∧ (matchOne ⟨mkRat 1 2, 10, true, true, mkRat 1 2, true, 100, 100⟩
          ⟨0, 5, 5, 2, 2, some (10, 10), false⟩ true
          ⟨mkRat 9 10, (3, 4), 0, (0, 0), 0, (0, 0), 0, (0, 0)⟩).2
          = [TierCall.roi] := by
  have he : matchOne (⟨mkRat 1 2, 10, true, true, mkRat 1 2, true, 100, 100⟩ : Config)
      ⟨0, 5, 5, 2, 2, some (10, 10), false⟩ true
      ⟨mkRat 9 10, (3, 4), 0, (0, 0), 0, (0, 0), 0, (0, 0)⟩
      = (⟨0, true, 3, 4, 5, 5, mkRat 9 10, "Heuristic"⟩, [TierCall.roi]) := by
    decide
  have h := tracker_tier_order _ _ _ _ _ _ he
  exact ⟨h.2.1 (by decide), by rw [he]⟩

lemma matchOne_method_pyramid (cfg : Config) (t : TemplateState) (fs : Bool)
    (o : MatchOracle) (h : (matchOne cfg t fs o).1.method = "Pyramid") :
    cfg.confidence ≤ o.refineScore
      ∧ cfg.confidence * (9 / 10) ≤ o.coarseScore := by
  rcases hH : heuristicTier cfg t o with ⟨ho, c1⟩
  cases ho with
  | some rh =>
    have hs := heuristicTier_some cfg t o rh (by rw [hH])
    have hm : matchOne cfg t fs o = (rh, c1) := by simp only [matchOne, hH]
    rw [hm] at h
    rw [hs.1] at h
    exact absurd h (by decide)
  | none =>
    rcases hP : pyramidTier cfg t fs o with ⟨po, c2⟩
    cases po with
    | some rp =>
      have hs := pyramidTier_some cfg t fs o rp (by rw [hP])
      exact ⟨hs.2.2.2.2.1, hs.2.2.2.2.2.1⟩
    | none =>
      rcases hF : fullScanTier cfg t o with ⟨fo, c3⟩
      cases fo with
      | some rf =>
        have hs := fullScanTier_some cfg t o rf (by rw [hF])
        have hm : matchOne cfg t fs o = (rf, c1 ++ c2 ++ c3) := by
          simp only [matchOne, hH, hP, hF]
        rw [hm] at h
        rw [hs.1] at h
        exact absurd h (by decide)
      | none =>
        have hm : matchOne cfg t fs o = (notFound t, c1 ++ c2 ++ c3) := by
          simp only [matchOne, hH, hP, hF]
        rw [hm] at h
        rw [show (notFound t).method = "Not Found" from rfl] at h
        exact absurd h (by decide)

/-- C6: the pyramid tier accepts a coarse downscaled hit only at the relaxed
threshold `confidence * 0.9`; the refinement match is attempted only after
that; a "Pyramid" result is produced only when the refined full-resolution
score clears the primary threshold, its position is the refinement-window
origin (built from the rescaled coarse hit) plus the refined offset, and a
refined score below the primary threshold means the pyramid tier yields no
match. -/
theorem pyramid_threshold_gate (cfg : Config) (t : TemplateState) (fs : Bool)
    (o : MatchOracle) (res : Option MatchResult) (calls : List TierCall)
    (h : pyramidTier cfg t fs o = (res, calls)) :
    (TierCall.refine ∈ calls → cfg.confidence * (9 / 10) ≤ o.coarseScore)
      ∧ (∀ r, res = some r → r.method = "Pyramid"
          ∧ r.score = o.refineScore
          ∧ cfg.confidence ≤ o.refineScore
          ∧ cfg.confidence * (9 / 10) ≤ o.coarseScore
          ∧ r.x = max 0 (⌊(o.coarseLoc.1 : ℚ) * (1 / cfg.downscaleFactor)⌋
                - max 20 ⌊(50 : ℚ) / cfg.downscaleFactor⌋) + o.refineLoc.1
          ∧ r.y = max 0 (⌊(o.coarseLoc.2 : ℚ) * (1 / cfg.downscaleFactor)⌋
                - max 20 ⌊(50 : ℚ) / cfg.downscaleFactor⌋) + o.refineLoc.2)
      ∧ (o.refineScore < cfg.confidence → res = none)
      ∧ ((matchOne cfg t fs o).1.method = "Pyramid" →
          cfg.confidence ≤ o.refineScore
            ∧ cfg.confidence * (9 / 10) ≤ o.coarseScore) := by
  refine ⟨?_, ?_, ?_, fun hm => matchOne_method_pyramid cfg t fs o hm⟩
  · intro hmem
    exact pyramidTier_refineCall cfg t fs o (by rw [h]; exact hmem)
  · intro r hr
    have hs := pyramidTier_some cfg t fs o r (by rw [h, ← hr])
    exact ⟨hs.1, hs.2.2.2.1, hs.2.2.2.2.1, hs.2.2.2.2.2.1,
      hs.2.2.2.2.2.2.2.1, hs.2.2.2.2.2.2.2.2⟩
  · intro hlt
    have := pyramidTier_refineFail cfg t fs o hlt
    rw [h] at this
    exact this

/-- Witness for C6 at a concrete pyramid success: coarse score 1/2 clears
the relaxed threshold (1/2)·(9/10) and the refined score 3/4 clears the
primary threshold 1/2. -/
theorem pyramid_threshold_gate_wit :
    ((1 : ℚ)/2) * (9/10) ≤ 1/2 ∧ ((1 : ℚ)/2) ≤ 3/4 := by
  have he : pyramidTier (⟨1/2, 10, true, true, 1/2, true, 100, 100⟩ : Config)
      ⟨0, 5, 5, 2, 2, none, false⟩ true
      ⟨0, (0, 0), 1/2, (4, 6), 3/4, (1, 2), 0, (0, 0)⟩
      = (some ⟨0, true, 1, 2, 5, 5, 3/4, "Pyramid"⟩,
          [TierCall.coarse, TierCall.refine]) := by
    norm_num [pyramidTier, Config.screenWSmall, Config.screenHSmall,
      Int.max_def, Int.min_def]
  have h := pyramid_threshold_gate _ _ _ _ _ _ he
  have h2 := h.2.1 _ rfl
  exact ⟨h2.2.2.2.1, h2.2.2.1⟩

end Tracker

namespace Tracker

lemma getD_set (ts : List TemplateState) (j : Nat) (v : TemplateState) :
    ∀ i, (ts.set j v).getD i default =
      if i = j ∧ j < ts.length then v else ts.getD i default := by
  induction ts generalizing j with
  | nil => intro i; simp
  | cons t rest ih =>
    intro i
    cases j with
    | zero =>
      cases i with
      | zero => simp
      | succ i' => simp
    | succ j' =>
      cases i with
      | zero => simp
      | succ i' =>
        rw [show (t :: rest).set (j' + 1) v = t :: rest.set j' v from rfl]
        rw [show (t :: rest.set j' v).getD (i' + 1) default
            = (rest.set j' v).getD i' default from rfl]
        rw [ih j' i']
        by_cases hc : i' = j' ∧ j' < rest.length
        · rw [if_pos hc, if_pos (by constructor <;> [omega; simpa using hc.2])]
        · rw [if_neg hc, if_neg (by intro hc'; exact hc ⟨by omega, by simpa using hc'.2⟩)]
          rfl

lemma applyResult_length (ts : List TemplateState) (r : MatchResult) :
    (applyResult ts r).length = ts.length := by
  unfold applyResult
  cases ts.get? r.id <;> simp

lemma applyResult_getD (ts : List TemplateState) (r : MatchResult) (i : Nat) :
    (applyResult ts r).getD i default =
      if i = r.id ∧ r.id < ts.length then
        ⟨(ts.getD i default).id, (ts.getD i default).w, (ts.getD i default).h,
          (ts.getD i default).wSmall, (ts.getD i default).hSmall,
          (if r.found then some (r.x, r.y) else none), r.found⟩
      else ts.getD i default := by
  unfold applyResult
  cases hg : ts.get? r.id with
  | none =>
    have hlen : ts.length ≤ r.id := List.get?_eq_none.mp hg
    rw [if_neg (show ¬ (i = r.id ∧ r.id < ts.length) from
      fun hc => absurd hc.2 (by omega))]
  | some t =>
    have hlen : r.id < ts.length := by
      by_contra hc
      rw [List.get?_eq_none.mpr (by omega)] at hg
      cases hg
    have ht : ts.getD r.id default = t := by
      rw [List.getD_eq_getElem?_getD, ← List.get?_eq_getElem?, hg]
      rfl
    rw [getD_set]
    by_cases hc : i = r.id ∧ r.id < ts.length
    · rw [if_pos hc, if_pos hc]
      obtain ⟨rfl, _⟩ := hc
      rw [ht]
    · rw [if_neg hc, if_neg hc]

lemma foldl_applyResult_length (rs : List MatchResult) :
    ∀ ts : List TemplateState, (rs.foldl applyResult ts).length = ts.length := by
  induction rs with
  | nil => intro ts; rfl
  | cons r rest ih =>
    intro ts
    rw [List.foldl_cons, ih, applyResult_length]

lemma foldl_applyResult_getD (rs : List MatchResult) :
    ∀ (ts : List TemplateState) (base : Nat),
      (∀ k, k < rs.length → (rs.getD k default).id = base + k) →
      ∀ i, i < ts.length →
        (rs.foldl applyResult ts).getD i default =
          if base ≤ i ∧ i < base + rs.length then
            ⟨(ts.getD i default).id, (ts.getD i default).w, (ts.getD i default).h,
              (ts.getD i default).wSmall, (ts.getD i default).hSmall,
              (if (rs.getD (i - base) default).found
                then some ((rs.getD (i - base) default).x,
                    (rs.getD (i - base) default).y)
                else none),
              (rs.getD (i - base) default).found⟩
          else ts.getD i default := by
  induction rs with
  | nil =>
    intro ts base hids i hi
    rw [if_neg (show ¬ (base ≤ i ∧ i < base + ([] : List MatchResult).length) from by
      intro hc
      simp only [List.length_nil] at hc
      omega)]
    rfl
  | cons r rest ih =>
    intro ts base hids i hi
    rw [List.foldl_cons]
    have hrid : r.id = base := by
      have := hids 0 (by simp)
      simpa using this
    have hids' : ∀ k, k < rest.length → (rest.getD k default).id = (base + 1) + k := by
      intro k hk
      have h2 := hids (k + 1) (by simp; omega)
      rw [show ((r :: rest).getD (k + 1) default) = rest.getD k default from rfl] at h2
      rw [h2]; omega
    have hmain := ih (applyResult ts r) (base + 1) hids' i
      (by rw [applyResult_length]; exact hi)
    rw [hmain, applyResult_getD]
    by_cases hib : i = base
    · rw [if_neg (show ¬ (base + 1 ≤ i ∧ i < base + 1 + rest.length) from
        fun hc' => absurd hc'.1 (by omega))]
      rw [if_pos (show i = r.id ∧ r.id < ts.length from ⟨by omega, by omega⟩)]
      rw [if_pos (show base ≤ i ∧ i < base + (r :: rest).length from by
        simp only [List.length_cons]
        omega)]
      rw [show i - base = 0 from by omega]
      rfl
    · by_cases hc : base + 1 ≤ i ∧ i < base + 1 + rest.length
      · rw [if_pos hc]
        rw [if_neg (show ¬ (i = r.id ∧ r.id < ts.length) from
          fun hc' => hib (hc'.1.trans hrid))]
        rw [if_pos (show base ≤ i ∧ i < base + (r :: rest).length from by
          simp only [List.length_cons]
          omega)]
        rw [show i - base = (i - (base + 1)) + 1 from by omega]
        rfl
      · rw [if_neg hc]
        rw [if_neg (show ¬ (i = r.id ∧ r.id < ts.length) from
          fun hc' => hib (hc'.1.trans hrid))]
        rw [if_neg (show ¬ (base ≤ i ∧ i < base + (r :: rest).length) from by
          intro hc2
          simp only [List.length_cons] at hc2
          exact hc ⟨by omega, by omega⟩)]

lemma matchAll_length (cfg : Config) (os : Nat → MatchOracle) :
    ∀ (ts : List TemplateState) (i : Nat), (matchAll cfg os ts i).length = ts.length := by
  intro ts
  induction ts with
  | nil => intro i; rfl
  | cons t rest ih => intro i; simp [matchAll, ih]

lemma matchAll_getD (cfg : Config) (os : Nat → MatchOracle) :
    ∀ (ts : List TemplateState) (i0 k : Nat), k < ts.length →
      (matchAll cfg os ts i0).getD k default
        = (matchOne cfg (ts.getD k default) cfg.usePyramid (os (i0 + k))).1 := by
  intro ts
  induction ts with
  | nil => intro i0 k hk; simp at hk
  | cons t rest ih =>
    intro i0 k hk
    cases k with
    | zero => rfl
    | succ k' =>
      have hk' : k' < rest.length := by simpa using hk
      rw [show (matchAll cfg os (t :: rest) i0).getD (k' + 1) default
          = (matchAll cfg os rest (i0 + 1)).getD k' default from rfl]
      rw [ih (i0 + 1) k' hk']
      rw [show i0 + 1 + k' = i0 + (k' + 1) from by omega]
      rfl

lemma matchOne_id (cfg : Config) (t : TemplateState) (fs : Bool) (o : MatchOracle) :
    (matchOne cfg t fs o).1.id = t.id := by
  rcases hH : heuristicTier cfg t o with ⟨ho, c1⟩
  cases ho with
  | some rh =>
    have hs := heuristicTier_some cfg t o rh (by rw [hH])
    rw [show matchOne cfg t fs o = (rh, c1) from by simp only [matchOne, hH]]
    exact hs.2.2.1
  | none =>
    rcases hP : pyramidTier cfg t fs o with ⟨po, c2⟩
    cases po with
    | some rp =>
      have hs := pyramidTier_some cfg t fs o rp (by rw [hP])
      rw [show matchOne cfg t fs o = (rp, c1 ++ c2) from by
        simp only [matchOne, hH, hP]]
      exact hs.2.2.1
    | none =>
      rcases hF : fullScanTier cfg t o with ⟨fo, c3⟩
      cases fo with
      | some rf =>
        have hs := fullScanTier_some cfg t o rf (by rw [hF])
        rw [show matchOne cfg t fs o = (rf, c1 ++ c2 ++ c3) from by
          simp only [matchOne, hH, hP, hF]]
        exact hs.2.2.1
      | none =>
        rw [show matchOne cfg t fs o = (notFound t, c1 ++ c2 ++ c3) from by
          simp only [matchOne, hH, hP, hF]]
        rfl

lemma matchOne_noLastPos_no_roi (cfg : Config) (t : TemplateState) (fs : Bool)
    (o : MatchOracle) (hlp : t.lastPos = none) :
    TierCall.roi ∉ (matchOne cfg t fs o).2 := by
  have hH := heuristicTier_noLastPos cfg t o hlp
  rcases hP : pyramidTier cfg t fs o with ⟨po, c2⟩
  have hc2 : (pyramidTier cfg t fs o).2 = c2 := by rw [hP]
  have hc2forms : c2 = [] ∨ c2 = [TierCall.coarse]
      ∨ c2 = [TierCall.coarse, TierCall.refine] :=
    hc2 ▸ pyramidTier_calls cfg t fs o
  cases po with
  | some rp =>
    rw [show matchOne cfg t fs o = (rp, [] ++ c2) from by
      simp only [matchOne, hH, hP]]
    rcases hc2forms with hc | hc | hc <;> subst hc <;> dsimp only <;> decide
  | none =>
    rcases hF : fullScanTier cfg t o with ⟨fo, c3⟩
    have hc3 : (fullScanTier cfg t o).2 = c3 := by rw [hF]
    have hc3forms : c3 = [] ∨ c3 = [TierCall.fullScan] :=
      hc3 ▸ fullScanTier_calls cfg t o
    cases fo with
    | some rf =>
      rw [show matchOne cfg t fs o = (rf, [] ++ c2 ++ c3) from by
        simp only [matchOne, hH, hP, hF]]
      rcases hc2forms with hc | hc | hc <;> subst hc <;>
        rcases hc3forms with hc' | hc' <;> subst hc' <;> dsimp only <;> decide
    | none =>
      rw [show matchOne cfg t fs o = (notFound t, [] ++ c2 ++ c3) from by
        simp only [matchOne, hH, hP, hF]]
      rcases hc2forms with hc | hc | hc <;> subst hc <;>
        rcases hc3forms with hc' | hc' <;> subst hc' <;> dsimp only <;> decide

lemma matchOne_notFound (cfg : Config) (t : TemplateState) (fs : Bool)
    (o : MatchOracle) (h : (matchOne cfg t fs o).1.found = false) :
    (matchOne cfg t fs o).1 = notFound t := by
  rcases hH : heuristicTier cfg t o with ⟨ho, c1⟩
  cases ho with
  | some rh =>
    have hs := heuristicTier_some cfg t o rh (by rw [hH])
    rw [show matchOne cfg t fs o = (rh, c1) from by simp only [matchOne, hH]] at h ⊢
    rw [hs.2.1] at h
    exact absurd h (by decide)
  | none =>
    rcases hP : pyramidTier cfg t fs o with ⟨po, c2⟩
    cases po with
    | some rp =>
      have hs := pyramidTier_some cfg t fs o rp (by rw [hP])
      rw [show matchOne cfg t fs o = (rp, c1 ++ c2) from by
        simp only [matchOne, hH, hP]] at h ⊢
      rw [hs.2.1] at h
      exact absurd h (by decide)
    | none =>
      rcases hF : fullScanTier cfg t o with ⟨fo, c3⟩
      cases fo with
      | some rf =>
        have hs := fullScanTier_some cfg t o rf (by rw [hF])
        rw [show matchOne cfg t fs o = (rf, c1 ++ c2 ++ c3) from by
          simp only [matchOne, hH, hP, hF]] at h ⊢
        rw [hs.2.1] at h
        exact absurd h (by decide)
      | none =>
        rw [show matchOne cfg t fs o = (notFound t, c1 ++ c2 ++ c3) from by
          simp only [matchOne, hH, hP, hF]]

end Tracker

/-! ## Lemmas about the shared entity store -/

namespace GameAgent

lemma lookup_map_replace (name : String) (v : Obs) :
    ∀ es : List (String × Obs), es.any (fun p => p.1 = name) = true →
      List.lookup name (es.map (fun p => if p.1 = name then (name, v) else p))
        = some v := by
  intro es
  induction es with
  | nil => intro h; simp at h
  | cons p rest ih =>
    obtain ⟨k, b⟩ := p
    intro h
    by_cases hp : k = name
    · simp only [List.map_cons]
      rw [if_pos (show (k, b).1 = name from hp)]
      simp [List.lookup]
    · simp only [List.map_cons]
      rw [if_neg (show ¬ (k, b).1 = name from hp)]
      have hrest : rest.any (fun p => p.1 = name) = true := by
        simp only [List.any_cons] at h
        simpa [hp] using h
      have hne : (name == k) = false := by
        simp only [beq_eq_false_iff_ne, ne_eq]
        exact fun hh => hp hh.symm
      simp [List.lookup, hne, ih hrest]

lemma lookup_append_self (name : String) (v : Obs) :
    ∀ es : List (String × Obs), es.any (fun p => p.1 = name) = false →
      List.lookup name (es ++ [(name, v)]) = some v := by
  intro es
  induction es with
  | nil =>
    intro _
    simp [List.lookup]
  | cons p rest ih =>
    obtain ⟨k, b⟩ := p
    intro h
    simp only [List.any_cons, Bool.or_eq_false_iff] at h
    have hp : ¬ (k = name) := by simpa using h.1
    have hne : (name == k) = false := by
      simp only [beq_eq_false_iff_ne, ne_eq]
      exact fun hh => hp hh.symm
    simp only [List.cons_append]
    simp [List.lookup, hne, ih h.2]

lemma lookup_map_replace_other (name : String) (v : Obs) (m : String)
    (hm : m ≠ name) :
    ∀ es : List (String × Obs),
      List.lookup m (es.map (fun p => if p.1 = name then (name, v) else p))
        = List.lookup m es := by
  intro es
  induction es with
  | nil => rfl
  | cons p rest ih =>
    obtain ⟨k, b⟩ := p
    by_cases hp : k = name
    · simp only [List.map_cons]
      rw [if_pos (show (k, b).1 = name from hp)]
      have h1 : (m == name) = false := by
        simp only [beq_eq_false_iff_ne, ne_eq]
        exact hm
      have h2 : (m == k) = false := by
        simp only [beq_eq_false_iff_ne, ne_eq]
        rw [hp]
        exact hm
      simp [List.lookup, h1, h2, ih]
    · simp only [List.map_cons]
      rw [if_neg (show ¬ (k, b).1 = name from hp)]
      by_cases hmk : m = k
      · simp [List.lookup, show (m == k) = true from by simpa using hmk]
      · have h2 : (m == k) = false := by
          simp only [beq_eq_false_iff_ne, ne_eq]
          exact hmk
        simp [List.lookup, h2, ih]

lemma lookup_append_other (name : String) (v : Obs) (m : String)
    (hm : m ≠ name) :
    ∀ es : List (String × Obs),
      List.lookup m (es ++ [(name, v)]) = List.lookup m es := by
  intro es
  induction es with
  | nil =>
    have h1 : (m == name) = false := by
      simp only [beq_eq_false_iff_ne, ne_eq]
      exact hm
    simp [List.lookup, h1]
  | cons p rest ih =>
    obtain ⟨k, b⟩ := p
    by_cases hmk : m = k
    · simp [List.lookup, show (m == k) = true from by simpa using hmk]
    · have h2 : (m == k) = false := by
        simp only [beq_eq_false_iff_ne, ne_eq]
        exact hmk
      simp [List.lookup, h2, ih]

lemma lookup_updateEntity_self (es : List (String × Obs)) (name : String)
    (v : Obs) : List.lookup name (updateEntity es name v) = some v := by
  unfold updateEntity
  by_cases h : es.any (fun p => p.1 = name) = true
  · rw [if_pos h]
    exact lookup_map_replace name v es h
  · rw [if_neg h]
    refine lookup_append_self name v es ?_
    cases hb : es.any (fun p => p.1 = name) with
    | false => rfl
    | true => exact absurd hb h

lemma lookup_updateEntity_other (es : List (String × Obs)) (name : String)
    (v : Obs) (m : String) (hm : m ≠ name) :
    List.lookup m (updateEntity es name v) = List.lookup m es := by
  unfold updateEntity
  split_ifs
  · exact lookup_map_replace_other name v m hm es
  · exact lookup_append_other name v m hm es

/-- C9: `update_entity` fully replaces the stored entry under `name` — the
new table maps `name` to exactly the new observation, whatever was stored
before (never a partial merge) — and leaves every other name's entry
untouched; `get_all_entities` returns the entries as a plain value (the
`dict(...)` copy), so a snapshot taken before an update is a value
unaffected by it, and `get_found_entities` is exactly the found-only
restriction of that snapshot. -/
theorem store_full_replace (es : List (String × Obs)) (name : String)
    (v : Obs) :
    getEntity (updateEntity es name v) name = some v
      ∧ (∀ m, m ≠ name →
          getEntity (updateEntity es name v) m = getEntity es m)
      ∧ getAllEntities es = es
      ∧ (∀ p, p ∈ getFoundEntities es ↔ p ∈ getAllEntities es
          ∧ p.2.found = true) := by
  refine ⟨lookup_updateEntity_self es name v, ?_, rfl, ?_⟩
  · intro m hm
    exact lookup_updateEntity_other es name v m hm
  · intro p
    simp [getFoundEntities, getAllEntities, List.mem_filter]

/-- Witness for C9: replacing the "slime" entry swaps in the whole new
observation; none of the old fields survive. -/
theorem store_full_replace_wit :
    getEntity (updateEntity [("slime", ⟨800, 400, true, "Heuristic", 5, 5⟩)]
        "slime" ⟨0, 0, false, "Not Found", 5, 5⟩) "slime"
      = some ⟨0, 0, false, "Not Found", 5, 5⟩ := by
  exact (store_full_replace [("slime", ⟨800, 400, true, "Heuristic", 5, 5⟩)]
    "slime" ⟨0, 0, false, "Not Found", 5, 5⟩).1

end GameAgent

namespace Tracker

/-- C4: one `find_all` cycle performs exactly one screen capture, at most
one grayscale conversion and at most one downscaled copy of the frame, and
every template's per-frame match runs against the oracle slice of that one
captured frame (token `w.captures`), with the shared downscaled frame
available exactly when the pyramid is enabled. -/
theorem one_capture_per_cycle (cfg : Config) (ts : List TemplateState)
    (os : Nat → Nat → MatchOracle) (w : World) :
    ((findAll cfg ts os w).2.2).captures = w.captures + 1
      ∧ ((findAll cfg ts os w).2.2).downscales ≤ w.downscales + 1
      ∧ ((findAll cfg ts os w).2.2).grayConvs ≤ w.grayConvs + 1
      ∧ (findAll cfg ts os w).1.length = ts.length
      ∧ ∀ i, i < ts.length →
          (findAll cfg ts os w).1.getD i default
            = (matchOne cfg (ts.getD i default) cfg.usePyramid
                (os w.captures i)).1 := by
  refine ⟨rfl, ?_, ?_, matchAll_length cfg (os w.captures) ts 0, ?_⟩
  · show w.downscales + (if cfg.usePyramid = true then 1 else 0) ≤ w.downscales + 1
    split_ifs <;> omega
  · show w.grayConvs + (if cfg.useGrayscale = true then 1 else 0) ≤ w.grayConvs + 1
    split_ifs <;> omega
  · intro i hi
    have h := matchAll_getD cfg (os w.captures) ts 0 i hi
    rw [show (0 : Nat) + i = i from by omega] at h
    exact h

/-- Witness for C4 at a one-template cycle starting from a zeroed resource
counter: exactly one capture is recorded and template 0 is matched against
frame token 0. -/
theorem one_capture_per_cycle_wit :
    ((findAll ⟨mkRat 1 2, 10, false, false, 1, true, 100, 100⟩
          [⟨0, 5, 5, 5, 5, none, false⟩]
          (fun _ _ => ⟨0, (0, 0), 0, (0, 0), 0, (0, 0), 0, (0, 0)⟩)
          ⟨0, 0, 0⟩).2.2).captures = 1
      ∧ (findAll ⟨mkRat 1 2, 10, false, false, 1, true, 100, 100⟩
          [⟨0, 5, 5, 5, 5, none, false⟩]
          (fun _ _ => ⟨0, (0, 0), 0, (0, 0), 0, (0, 0), 0, (0, 0)⟩)
          ⟨0, 0, 0⟩).1.getD 0 default
        = (matchOne ⟨mkRat 1 2, 10, false, false, 1, true, 100, 100⟩
            ⟨0, 5, 5, 5, 5, none, false⟩ false
            ⟨0, (0, 0), 0, (0, 0), 0, (0, 0), 0, (0, 0)⟩).1 := by
  have h := one_capture_per_cycle ⟨mkRat 1 2, 10, false, false, 1, true, 100, 100⟩
    [⟨0, 5, 5, 5, 5, none, false⟩]
    (fun _ _ => ⟨0, (0, 0), 0, (0, 0), 0, (0, 0), 0, (0, 0)⟩) ⟨0, 0, 0⟩
  exact ⟨h.1, h.2.2.2.2 0 (by decide)⟩

/-- C5: after a `find_all` cycle each template's `last_pos` is exactly the
result position when found and `None` when not found (and the `found` flag
mirrors the result); and a template whose `last_pos` is `None` never makes
the heuristic-ROI matching call on the next cycle. -/
theorem loss_resets_state (cfg : Config) (ts : List TemplateState)
    (os : Nat → Nat → MatchOracle) (w : World)
    (hid : ∀ i, i < ts.length → (ts.getD i default).id = i) :
    (findAll cfg ts os w).2.1.length = ts.length
      ∧ (∀ i, i < ts.length →
          ((findAll cfg ts os w).2.1.getD i default).lastPos
              = (if ((findAll cfg ts os w).1.getD i default).found
                  then some (((findAll cfg ts os w).1.getD i default).x,
                      ((findAll cfg ts os w).1.getD i default).y)
                  else none)
            ∧ ((findAll cfg ts os w).2.1.getD i default).found
                = ((findAll cfg ts os w).1.getD i default).found)
      ∧ (∀ (t : TemplateState) (fs : Bool) (o : MatchOracle),
          t.lastPos = none → TierCall.roi ∉ (matchOne cfg t fs o).2) := by
  have hrs_len : (matchAll cfg (os w.captures) ts 0).length = ts.length :=
    matchAll_length cfg (os w.captures) ts 0
  have hids : ∀ k, k < (matchAll cfg (os w.captures) ts 0).length →
      ((matchAll cfg (os w.captures) ts 0).getD k default).id = 0 + k := by
    intro k hk
    rw [hrs_len] at hk
    rw [matchAll_getD cfg (os w.captures) ts 0 k hk, matchOne_id]
    rw [hid k hk]
    omega
  refine ⟨?_, ?_, ?_⟩
  · exact foldl_applyResult_length (matchAll cfg (os w.captures) ts 0) ts
  · intro i hi
    have h := foldl_applyResult_getD (matchAll cfg (os w.captures) ts 0) ts 0
      hids i hi
    rw [if_pos (show 0 ≤ i ∧ i < 0 + (matchAll cfg (os w.captures) ts 0).length
      from by rw [hrs_len]; omega)] at h
    constructor
    · show (((matchAll cfg (os w.captures) ts 0).foldl applyResult ts).getD
          i default).lastPos = _
      rw [h]
      rfl
    · show (((matchAll cfg (os w.captures) ts 0).foldl applyResult ts).getD
          i default).found = _
      rw [h]
      rfl
  · intro t fs o hlp
    exact matchOne_noLastPos_no_roi cfg t fs o hlp

/-- Witness for C5: a template whose heuristic search misses this frame has
its `last_pos` cleared to `None` by the cycle's state update. -/
theorem loss_resets_state_wit :
    ((findAll ⟨mkRat 1 2, 10, false, true, 1, true, 100, 100⟩
        [⟨0, 5, 5, 5, 5, some (10, 10), true⟩]
        (fun _ _ => ⟨0, (0, 0), 0, (0, 0), 0, (0, 0), 0, (0, 0)⟩)
        ⟨0, 0, 0⟩).2.1.getD 0 default).lastPos = none := by
  have h := loss_resets_state ⟨mkRat 1 2, 10, false, true, 1, true, 100, 100⟩
    [⟨0, 5, 5, 5, 5, some (10, 10), true⟩]
    (fun _ _ => ⟨0, (0, 0), 0, (0, 0), 0, (0, 0), 0, (0, 0)⟩) ⟨0, 0, 0⟩
    (by decide)
  have h2 := (h.2.1 0 (by decide)).1
  rw [h2]
  rw [show ((findAll ⟨mkRat 1 2, 10, false, true, 1, true, 100, 100⟩
      [⟨0, 5, 5, 5, 5, some (10, 10), true⟩]
      (fun _ _ => ⟨0, (0, 0), 0, (0, 0), 0, (0, 0), 0, (0, 0)⟩)
      ⟨0, 0, 0⟩).1.getD 0 default).found = false from by decide]
  rfl

/-- C10 (implicit): a template missed in a cycle yields a `MatchResult`
with coordinates (0, 0), score 0 and tag "Not Found", and the tracker
service publishes exactly these values into the shared store, fully
overwriting the previous entry for that name — a reader ignoring the
`found` flag observes position (0, 0), not the last-seen position. -/
theorem miss_publishes_origin (cfg : Config) (t : TemplateState) (fs : Bool)
    (o : MatchOracle) (h : (matchOne cfg t fs o).1.found = false) :
    (matchOne cfg t fs o).1.x = 0
      ∧ (matchOne cfg t fs o).1.y = 0
      ∧ (matchOne cfg t fs o).1.score = 0
      ∧ (matchOne cfg t fs o).1.method = "Not Found"
      ∧ ∀ (es : List (String × GameAgent.Obs)) (name : String),
          GameAgent.getEntity
              (GameAgent.publishResult es name (matchOne cfg t fs o).1) name
            = some ⟨0, 0, false, "Not Found", t.w, t.h⟩ := by
  have hnf := matchOne_notFound cfg t fs o h
  rw [hnf]
  refine ⟨rfl, rfl, rfl, rfl, ?_⟩
  intro es name
  show GameAgent.getEntity
      (GameAgent.updateEntity es name ⟨0, 0, false, "Not Found", t.w, t.h⟩) name
    = some ⟨0, 0, false, "Not Found", t.w, t.h⟩
  exact GameAgent.lookup_updateEntity_self es name _

end Tracker

namespace Tracker

/-- Witness for C10: a missed template publishes (0, 0), overwriting the
previous "slime" entry at (800, 400). -/
theorem miss_publishes_origin_wit :
    GameAgent.getEntity
        (GameAgent.publishResult
          [("slime", ⟨800, 400, true, "Heuristic", 5, 5⟩)] "slime"
          (matchOne ⟨mkRat 1 2, 10, false, true, 1, true, 100, 100⟩
            ⟨0, 5, 5, 5, 5, none, false⟩ false
            ⟨0, (0, 0), 0, (0, 0), 0, (0, 0), 0, (0, 0)⟩).1)
        "slime"
      = some ⟨0, 0, false, "Not Found", 5, 5⟩ := by
  have h := miss_publishes_origin ⟨mkRat 1 2, 10, false, true, 1, true, 100, 100⟩
    ⟨0, 5, 5, 5, 5, none, false⟩ false
    ⟨0, (0, 0), 0, (0, 0), 0, (0, 0), 0, (0, 0)⟩ (by decide)
  exact h.2.2.2.2 [("slime", ⟨800, 400, true, "Heuristic", 5, 5⟩)] "slime"

end Tracker
